import Mathlib

/-!
Shallow embedding of `src/codes_cpp/main.cpp` (spring-network avalanche driver).

Modelling conventions:
* C `double` arithmetic is modelled by exact rational arithmetic (`ℚ`).
* `std::map` is modelled by an association list with overwrite-on-insert
  (`mapSet`) and first-match lookup (`mlookup`); keys are unique by
  construction, so lookup order is irrelevant.
* `std::map::operator[]` used as an rvalue on a possibly missing key
  default-inserts the value `0` and returns it; since the inserted value
  coincides with what any later default-insert would return, this is
  modelled by the pure lookup `(mlookup k m).getD 0`.
* The LAMMPS solver is an external collaborator; its state evolution under
  `minimize` is modelled by an oracle `snaps : Nat → List Int × List (ℚ × ℚ)`
  giving the tag array and position array after the k-th minimize call of
  the run.  Bond endpoint tags (`bond_atom`) are constant, and the bond type
  array is threaded explicitly because the driver mutates it in place.
-/

/-- C `round()`: round to nearest integer, halfway cases away from zero
    (`main.cpp` line 246). -/
def croundAway (q : ℚ) : ℤ :=
  if 0 ≤ q then ⌊q + 1/2⌋ else ⌈q - 1/2⌉

/-- Minimum-image correction applied to the x separation:
    `dx = dx - x_period * round(dx / x_period)` (`main.cpp` line 246). -/
def minImageDx (L dx : ℚ) : ℚ :=
  dx - L * (croundAway (dx / L) : ℚ)

/-- Squared 2D bond length computed by the evaluation loop
    (`main.cpp` lines 242-248): x is minimum-image corrected, y is not,
    z is ignored. -/
def bondDistSq (L : ℚ) (p1 p2 : ℚ × ℚ) : ℚ :=
  let dx := minImageDx L (p1.1 - p2.1)
  let dy := p1.2 - p2.2
  dx * dx + dy * dy

/-- Exact Boolean value of `sqrt d2 > b` for `d2 ≥ 0` (`main.cpp` line 250):
    a negative right-hand side is always exceeded, otherwise compare squares.
    The bridge to `Real.sqrt` is proved in `sqrtExceeds_iff_sqrt`. -/
def sqrtExceeds (d2 b : ℚ) : Bool :=
  decide (b < 0) || decide (b * b < d2)

/-- First-match lookup in an association list (model of `std::map` lookup). -/
def mlookup {β : Type} (t : Int) : List (Int × β) → Option β
  | [] => none
  | (k, v) :: r => if t = k then some v else mlookup t r

/-- Insert-or-overwrite (model of `std::map::operator[] = v`). -/
def mapSet {β : Type} : List (Int × β) → Int → β → List (Int × β)
  | [], k, v => [(k, v)]
  | (k', v') :: r, k, v => if k = k' then (k, v) :: r else (k', v') :: mapSet r k v

/-- The transient tag-to-local-index map rebuilt every avalanche iteration
    (`main.cpp` lines 215-218): `for i in 0..nlocal: map[tag[i]] = i`. -/
def tmapOf (tags : List Int) : List (Int × Nat) :=
  (List.range tags.length).foldl (fun m i => mapSet m (tags.getD i 0) i) []

/-- Data fixed for the duration of one evaluation pass: the threshold table,
    the tag map, the position array and the periodic box width. -/
structure EvalCtx where
  thresholds : List (Int × ℚ)
  tmap : List (Int × Nat)
  pos : List (ℚ × ℚ)
  L : ℚ

/-- The per-bond breaking criterion of the evaluation loop
    (`main.cpp` lines 226-250) for a bond of type `t` with endpoint tags
    `a1`, `a2`: skip types `≤ 1`, skip types without a threshold entry,
    resolve tags through the tag map (missing tags default to local index 0,
    the `operator[]` behaviour), then compare the minimum-image 2D distance
    against the threshold. -/
def markBond (c : EvalCtx) (t : Int) (a1 a2 : Int) : Bool :=
  if t ≤ 1 then false
  else
    match mlookup t c.thresholds with
    | none => false
    | some bl =>
      let i1 := (mlookup a1 c.tmap).getD 0
      let i2 := (mlookup a2 c.tmap).getD 0
      sqrtExceeds (bondDistSq c.L (c.pos.getD i1 (0, 0)) (c.pos.getD i2 (0, 0))) bl

/-- The sequential evaluation pass over the given bond indices
    (`main.cpp` lines 225-254), faithful to the in-place mutation
    `bond_type[i] = 0`: returns the final bond type array and the list of
    indices marked (broken), in processing order. -/
def passAux (c : EvalCtx) (ba : List (Int × Int)) : List Nat → List Int → List Int × List Nat
  | [], bt => (bt, [])
  | i :: rest, bt =>
    if markBond c (bt.getD i 0) (ba.getD i (0, 0)).1 (ba.getD i (0, 0)).2 then
      let r := passAux c ba rest (bt.set i 0)
      (r.1, i :: r.2)
    else
      passAux c ba rest bt

/-- One full evaluation pass over all `nbonds` bonds (`main.cpp`
    lines 225-254): `broken_this_iter` is the length of the marked list. -/
def runPass (c : EvalCtx) (ba : List (Int × Int)) (bt : List Int) : List Int × List Nat :=
  passAux c ba (List.range bt.length) bt

/-- Number of still-breakable bonds (type ≥ 2); the termination measure of
    the avalanche loop. -/
def nbreak (bt : List Int) : Nat :=
  bt.countP (fun t => decide (2 ≤ t))

/-- The per-iteration evaluation context assembled by the avalanche loop
    (`main.cpp` lines 206-223) from a snapshot `s = (tags, positions)`:
    the tag map is rebuilt fresh every iteration. -/
def evalCtxAt (thr : List (Int × ℚ)) (L : ℚ) (s : List Int × List (ℚ × ℚ)) : EvalCtx :=
  ⟨thr, tmapOf s.1, s.2, L⟩

/-- The avalanche loop (`main.cpp` lines 192-265) with an explicit fuel
    parameter: each iteration performs one minimize (advancing the snapshot
    oracle index `k`), one evaluation pass, and stops when the pass marks
    zero bonds.  Returns the final bond type array, the list of
    `broken_this_iter` values of the iterations performed (in order), and
    the next oracle index.  `avalanche` instantiates the fuel with
    `nbreak bt + 1`, which is proved sufficient below
    (`avalancheFuel_sufficient`): the fuel-exhausted branch is unreachable. -/
def avalancheFuel (thr : List (Int × ℚ)) (ba : List (Int × Int))
    (snaps : Nat → List Int × List (ℚ × ℚ)) (L : ℚ) :
    Nat → Nat → List Int → List Int × List Nat × Nat
  | 0, k, bt => (bt, [], k)
  | fuel + 1, k, bt =>
    let r := runPass (evalCtxAt thr L (snaps k)) ba bt
    if r.2.length = 0 then (r.1, [0], k + 1)
    else
      let res := avalancheFuel thr ba snaps L fuel (k + 1) r.1
      (res.1, r.2.length :: res.2.1, res.2.2)

/-- One full avalanche (`while (true)` loop of `main.cpp` lines 192-265),
    started at oracle index `k` with bond type array `bt`. -/
def avalanche (thr : List (Int × ℚ)) (ba : List (Int × Int))
    (snaps : Nat → List Int × List (ℚ × ℚ)) (L : ℚ) (k : Nat) (bt : List Int) :
    List Int × List Nat × Nat :=
  avalancheFuel thr ba snaps L (nbreak bt + 1) k bt

/-- The outer strain-step loop (`main.cpp` lines 180-275) restricted to the
    state the driver itself threads: the bond type array, the minimize
    counter, and `num_broken_total`.  Arguments: steps remaining, oracle
    index, bond types, accumulated total; returns the final triple. -/
def runSteps (thr : List (Int × ℚ)) (ba : List (Int × Int))
    (snaps : Nat → List Int × List (ℚ × ℚ)) (L : ℚ) :
    Nat → Nat → List Int → Nat → List Int × Nat × Nat
  | 0, k, bt, tot => (bt, k, tot)
  | n + 1, k, bt, tot =>
    let a := avalanche thr ba snaps L k bt
    runSteps thr ba snaps L n a.2.2 a.1 (tot + a.2.1.sum)

/-- The concatenation, over `n` strain steps, of the per-iteration
    `broken_this_iter` values (`main.cpp` lines 200, 252, 259). -/
def runIterCounts (thr : List (Int × ℚ)) (ba : List (Int × Int))
    (snaps : Nat → List Int × List (ℚ × ℚ)) (L : ℚ) :
    Nat → Nat → List Int → List Nat
  | 0, _, _ => []
  | n + 1, k, bt =>
    let a := avalanche thr ba snaps L k bt
    a.2.1 ++ runIterCounts thr ba snaps L n a.2.2 a.1

/-!
Threshold-file parsing (`parse_thresholds`, `main.cpp` lines 42-67).
The file is modelled as `Option (List String)`: `none` when the stream
cannot be opened, otherwise the list of lines delivered by `getline`.
-/

/-- Whitespace skipped by `sscanf` between conversions. -/
def isWS (ch : Char) : Bool :=
  ch = ' ' || ch = '\t' || ch = '\r'

/-- Value of a (non-empty) digit run. -/
def natOfDigits (ds : List Char) : Nat :=
  ds.foldl (fun n ch => 10 * n + (ch.toNat - 48)) 0

/-- Greedy parse of a digit run (the `%d` digit part). -/
def parseNatCs (cs : List Char) : Option (Nat × List Char) :=
  let ds := cs.takeWhile Char.isDigit
  if ds.isEmpty then none else some (natOfDigits ds, cs.dropWhile Char.isDigit)

/-- `sscanf` `%d`: optional sign then at least one digit; trailing
    characters are left unconsumed. -/
def parseIntCs (cs : List Char) : Option (Int × List Char) :=
  match cs with
  | '-' :: r => (parseNatCs r).map (fun p => (-(p.1 : Int), p.2))
  | '+' :: r => (parseNatCs r).map (fun p => ((p.1 : Int), p.2))
  | _ => (parseNatCs cs).map (fun p => ((p.1 : Int), p.2))

/-- Unsigned decimal part of `%lf`: `digits [. digits]` or `. digits`. -/
def parseFracCs (cs : List Char) : Option ℚ :=
  match parseNatCs cs with
  | some (n, rest) =>
    match rest with
    | '.' :: r2 =>
      let fs := r2.takeWhile Char.isDigit
      some ((n : ℚ) + (natOfDigits fs : ℚ) / ((10 : ℚ) ^ fs.length))
    | _ => some (n : ℚ)
  | none =>
    match cs with
    | '.' :: r2 =>
      let fs := r2.takeWhile Char.isDigit
      if fs.isEmpty then none else some ((natOfDigits fs : ℚ) / ((10 : ℚ) ^ fs.length))
    | _ => none

/-- `sscanf` `%lf` (decimal subset: optional sign, decimal digits and
    point; exponent forms are outside the modelled subset). -/
def parseFloatCs (cs : List Char) : Option ℚ :=
  match cs with
  | '-' :: r => (parseFracCs r).map (fun q => -q)
  | '+' :: r => parseFracCs r
  | _ => parseFracCs cs

/-- Model of `sscanf(line.c_str(), "%d %lf", &bond_type, &break_len) == 2`
    (`main.cpp` line 56): skip whitespace, an integer, whitespace, a
    floating-point number; anything after the second conversion is
    ignored. -/
def sscanfIntFloat (s : String) : Option (Int × ℚ) :=
  match parseIntCs (s.toList.dropWhile isWS) with
  | none => none
  | some (t, rest) =>
    match parseFloatCs (rest.dropWhile isWS) with
    | none => none
    | some b => some (t, b)

/-- The record contributed by one line of the thresholds file
    (`main.cpp` lines 52-58): empty lines and lines starting with `#` are
    skipped, as is any line `sscanf` does not fully convert. -/
def lineRecord (l : String) : Option (Int × ℚ) :=
  if l.isEmpty then none
  else if l.front = '#' then none
  else sscanfIntFloat l

/-- The threshold table accumulated from the file's lines
    (`thresholds[bond_type] = break_len`, `main.cpp` line 57). -/
def thrTableOf (lines : List String) : List (Int × ℚ) :=
  lines.foldl
    (fun m l =>
      match lineRecord l with
      | some r => mapSet m r.1 r.2
      | none => m)
    []

/-- `parse_thresholds` (`main.cpp` lines 42-67): throws when the file
    cannot be opened or when no valid record was parsed. -/
def parse_thresholds (content : Option (List String)) : Except String (List (Int × ℚ)) :=
  match content with
  | none => .error "cannot open thresholds resource"
  | some lines =>
    let tbl := thrTableOf lines
    if tbl.isEmpty then .error "no valid threshold found" else .ok tbl

/-- Whether an `Except` is an error. -/
def isErr {ε α : Type} : Except ε α → Bool
  | .error _ => true
  | .ok _ => false

/-!
The whole driver (`main`, `main.cpp` lines 70-282), with the solver as an
oracle.  Null solver pointers are modelled by flags: a flagged-null array
crashes (undefined behaviour) at the point the source first reads through
the pointer, and is harmless while unread — the source contains no
availability checks (`main.cpp` lines 206-212).
-/

/-- Which of the pointers obtained from the solver in an avalanche
    iteration (`main.cpp` lines 206-212) are null. -/
structure NullFlags where
  xNull : Bool
  bondTypeNull : Bool
  bondAtomNull : Bool
  tagNull : Bool
  nbondNull : Bool

/-- All solver pointers valid. -/
def noNulls : NullFlags := ⟨false, false, false, false, false⟩

/-- The evaluation pass with null modelling: `bond_type[i]` is read for
    every processed bond (`main.cpp` line 226), `bond_atom[i]` and the
    positions only for bonds that pass the type and threshold checks
    (`main.cpp` lines 236-242). -/
def passRawAux (nf : NullFlags) (c : EvalCtx) (ba : List (Int × Int)) :
    List Nat → List Int → Except String (List Int × List Nat)
  | [], bt => .ok (bt, [])
  | i :: rest, bt =>
    if nf.bondTypeNull then .error "bond_type"
    else
      let t := bt.getD i 0
      if t ≤ 1 then passRawAux nf c ba rest bt
      else
        match mlookup t c.thresholds with
        | none => passRawAux nf c ba rest bt
        | some bl =>
          if nf.bondAtomNull then .error "bond_atom"
          else if nf.xNull then .error "x"
          else
            let i1 := (mlookup (ba.getD i (0, 0)).1 c.tmap).getD 0
            let i2 := (mlookup (ba.getD i (0, 0)).2 c.tmap).getD 0
            if sqrtExceeds (bondDistSq c.L (c.pos.getD i1 (0, 0)) (c.pos.getD i2 (0, 0))) bl then
              match passRawAux nf c ba rest (bt.set i 0) with
              | .error e => .error e
              | .ok r => .ok (r.1, i :: r.2)
            else passRawAux nf c ba rest bt

/-- The avalanche loop with null modelling (`main.cpp` lines 192-265):
    every iteration dereferences the `nbond` global pointer
    (`main.cpp` line 212) and, when there are local atoms, the `tag`
    array (line 217); the remaining arrays are read inside the bond loop.
    Returns the final bond type array and next oracle index, or the name
    of the null array whose dereference crashed. -/
def avalancheRawFuel (thr : List (Int × ℚ)) (ba : List (Int × Int))
    (snaps : Nat → List Int × List (ℚ × ℚ)) (L : ℚ) (nf : NullFlags) :
    Nat → Nat → List Int → Except String (List Int × Nat)
  | 0, k, bt => .ok (bt, k)
  | fuel + 1, k, bt =>
    if nf.nbondNull then .error "nbond"
    else
      let s := snaps k
      if nf.tagNull && decide (s.1.length ≠ 0) then .error "tag"
      else
        match passRawAux nf (evalCtxAt thr L s) ba (List.range bt.length) bt with
        | .error e => .error e
        | .ok r =>
          if r.2.length = 0 then .ok (r.1, k + 1)
          else avalancheRawFuel thr ba snaps L nf fuel (k + 1) r.1

/-- One avalanche with null modelling; fuel as in `avalanche`. -/
def avalancheRaw (thr : List (Int × ℚ)) (ba : List (Int × Int))
    (snaps : Nat → List Int × List (ℚ × ℚ)) (L : ℚ) (nf : NullFlags)
    (k : Nat) (bt : List Int) : Except String (List Int × Nat) :=
  avalancheRawFuel thr ba snaps L nf (nbreak bt + 1) k bt

/-- Outcome of a run of `main`. -/
inductive RunResult where
  | exit (code : Int)
  | thrown (msg : String)
  | nullDeref (arrayName : String)
deriving DecidableEq

/-- The solver collaborator as seen by the driver: whether it opens, the
    error message (if any) it would report for a given command text, the
    snapshot oracle, the constant bond endpoint array, the initial bond
    type array, the box bounds, and which extracted pointers are null. -/
structure SolverModel where
  openOk : Bool
  cmdErr : String → Option String
  snaps : Nat → List Int × List (ℚ × ℚ)
  bondAtoms : List (Int × Int)
  bondTypes0 : List Int
  boxLo : ℚ
  boxHi : ℚ
  nulls : NullFlags

/-- The setup commands issued and checked one by one by `main`
    (`main.cpp` lines 99-176), in order. -/
def setupCmds (dataFile : String) : List String :=
  ["units lj", "dimension 2", "boundary p s p", "atom_style bond",
   "bond_style harmonic", "pair_style none", "read_data " ++ dataFile,
   "group bottom_atoms type 2", "group top_atoms type 3",
   "group mobile_atoms type 1", "fix 1 bottom_atoms setforce 0.0 0.0 0.0",
   "thermo 1", "thermo_style custom step pe press pyy"]

/-- The setup sequence: each command's error message is checked and the
    first non-null one makes `main` return 1 (`main.cpp` lines 99-176). -/
def runSetup (exec : String → Option String) : List String → Option Int
  | [] => none
  | cmd :: rest =>
    match exec cmd with
    | some _ => some 1
    | none => runSetup exec rest

/-- The strain-step loop of `main` (`main.cpp` lines 180-275).  The
    per-step commands — `displace_atoms` (line 186), `fix 2` (line 189),
    `min_style`/`minimize` (lines 194-195) and `unfix 2` (line 268) — are
    issued with their return values discarded by the source, so the model
    does not consume the solver's responses to them; their effect on
    solver state is part of the snapshot oracle. -/
def stepsLoop (thr : List (Int × ℚ)) (ba : List (Int × Int))
    (snaps : Nat → List Int × List (ℚ × ℚ)) (L : ℚ) (nf : NullFlags) :
    Nat → Nat → List Int → RunResult
  | 0, _, _ => .exit 0
  | n + 1, k, bt =>
    match avalancheRaw thr ba snaps L nf k bt with
    | .error name => .nullDeref name
    | .ok r => stepsLoop thr ba snaps L nf n r.2 r.1

/-- `main` (`main.cpp` lines 70-282): parse the thresholds file (an
    uncaught exception on failure), open the solver (uncaught exception on
    failure), run the checked setup commands (first error returns 1), then
    run the strain-step loop and return 0. -/
def runMain (thrContent : Option (List String)) (dataFile : String)
    (totalSteps : Nat) (m : SolverModel) : RunResult :=
  match parse_thresholds thrContent with
  | .error e => .thrown e
  | .ok thr =>
    if m.openOk then
      match runSetup m.cmdErr (setupCmds dataFile) with
      | some code => .exit code
      | none => stepsLoop thr m.bondAtoms m.snaps (m.boxHi - m.boxLo) m.nulls totalSteps 0 m.bondTypes0
    else .thrown "Failed to initialize LAMMPS"

/-!
Helper lemmas.
-/

theorem mlookup_mapSet {β : Type} (m : List (Int × β)) (k t : Int) (v : β) :
    mlookup t (mapSet m k v) = if t = k then some v else mlookup t m := by
  induction m with
  | nil => simp [mapSet, mlookup]
  | cons p r ih =>
    obtain ⟨k', v'⟩ := p
    by_cases hk : k = k'
    · subst hk
      by_cases ht : t = k <;> simp [mapSet, mlookup, ht]
    · by_cases ht : t = k'
      · subst ht
        simp [mapSet, hk, mlookup, Ne.symm hk]
      · simp [mapSet, hk, mlookup, ht, ih]

theorem mapSet_ne_nil {β : Type} (m : List (Int × β)) (k : Int) (v : β) :
    mapSet m k v ≠ [] := by
  cases m with
  | nil => simp [mapSet]
  | cons p r =>
    obtain ⟨k', v'⟩ := p
    by_cases hk : k = k' <;> simp [mapSet, hk]

theorem mlookup_tmap_fold (tags : List Int) (t : Int) (l : List Nat) (m : List (Int × Nat))
    (hmem : ∀ i ∈ l, tags.getD i 0 ∈ tags) (ht : t ∉ tags) (hm : mlookup t m = none) :
    mlookup t (l.foldl (fun m i => mapSet m (tags.getD i 0) i) m) = none := by
  induction l generalizing m with
  | nil => simpa using hm
  | cons i rest ih =>
    simp only [List.foldl_cons]
    refine ih _ (fun j hj => hmem j (List.mem_cons_of_mem _ hj)) ?_
    rw [mlookup_mapSet]
    have hne : ¬t = tags.getD i 0 := fun e => ht (e ▸ hmem i (List.mem_cons_self _ _))
    rw [if_neg hne]
    exact hm

/-- An endpoint tag absent from the snapshot does not resolve: the rebuilt
    tag map has no entry for it. -/
theorem mlookup_tmapOf_of_not_mem (tags : List Int) (t : Int) (ht : t ∉ tags) :
    mlookup t (tmapOf tags) = none := by
  refine mlookup_tmap_fold tags t _ [] (fun i hi => ?_) ht rfl
  rw [List.mem_range] at hi
  rw [List.getD_eq_getElem?_getD, List.getElem?_eq_getElem hi]
  exact List.getElem_mem _

/-- Unfolding of the per-bond criterion into the three conditions of the
    source loop: type at least 2, a threshold entry, excessive length. -/
theorem markBond_eq_true_iff (c : EvalCtx) (t a1 a2 : Int) :
    markBond c t a1 a2 = true ↔
      1 < t ∧ ∃ bl, mlookup t c.thresholds = some bl ∧
        sqrtExceeds
          (bondDistSq c.L (c.pos.getD ((mlookup a1 c.tmap).getD 0) (0, 0))
            (c.pos.getD ((mlookup a2 c.tmap).getD 0) (0, 0))) bl = true := by
  unfold markBond
  by_cases h : t ≤ 1
  · simp only [h, if_true]
    constructor
    · intro hf; cases hf
    · rintro ⟨h1, -⟩; omega
  · simp only [h, if_false]
    cases hl : mlookup t c.thresholds with
    | none =>
      constructor
      · intro hf; cases hf
      · rintro ⟨-, bl, hbl, -⟩; cases hbl
    | some bl =>
      constructor
      · intro hs; exact ⟨by omega, bl, rfl, hs⟩
      · rintro ⟨-, bl', hbl', hs⟩
        cases hbl'
        exact hs

/-- `bondDistSq` is a sum of squares. -/
theorem bondDistSq_nonneg (L : ℚ) (p1 p2 : ℚ × ℚ) : 0 ≤ bondDistSq L p1 p2 := by
  have h1 := mul_self_nonneg (minImageDx L (p1.1 - p2.1))
  have h2 := mul_self_nonneg (p1.2 - p2.2)
  simp only [bondDistSq]
  linarith

/-- `sqrtExceeds d2 b` is exactly the source comparison
    `sqrt(dist_sq) > break_len` (`main.cpp` line 250) in real arithmetic. -/
theorem sqrtExceeds_iff_sqrt (d2 b : ℚ) (_hd2 : 0 ≤ d2) :
    sqrtExceeds d2 b = true ↔ (b : ℝ) < Real.sqrt (d2 : ℝ) := by
  unfold sqrtExceeds
  rw [Bool.or_eq_true, decide_eq_true_eq, decide_eq_true_eq]
  by_cases hb : b < 0
  · constructor
    · intro _
      have hbR : (b : ℝ) < 0 := by exact_mod_cast hb
      exact lt_of_lt_of_le hbR (Real.sqrt_nonneg _)
    · intro _
      exact Or.inl hb
  · have hb0 : (0 : ℚ) ≤ b := le_of_not_lt hb
    have hb' : (0 : ℝ) ≤ (b : ℝ) := by exact_mod_cast hb0
    constructor
    · rintro (h | h)
      · exact absurd h hb
      · rw [Real.lt_sqrt hb']
        have hc : ((b : ℝ)) * (b : ℝ) < (d2 : ℝ) := by exact_mod_cast h
        nlinarith
    · intro h
      refine Or.inr ?_
      rw [Real.lt_sqrt hb'] at h
      have hc : ((b * b : ℚ) : ℝ) < ((d2 : ℚ) : ℝ) := by push_cast; nlinarith
      exact_mod_cast hc

/-- The sequential pass marks exactly the bonds satisfying the pointwise
    criterion on the initial state: on a duplicate-free index list, the
    in-place `bond_type[i] = 0` writes never affect the decision for a
    later bond. -/
theorem passAux_marks (c : EvalCtx) (ba : List (Int × Int)) (l : List Nat) (bt : List Int)
    (h : l.Nodup) :
    (passAux c ba l bt).2 =
      l.filter (fun i => markBond c (bt.getD i 0) (ba.getD i (0, 0)).1 (ba.getD i (0, 0)).2) := by
  induction l generalizing bt with
  | nil => simp [passAux]
  | cons i rest ih =>
    rcases List.nodup_cons.1 h with ⟨hi, hrest⟩
    have hsame : ∀ j ∈ rest,
        markBond c ((bt.set i 0).getD j 0) (ba.getD j (0, 0)).1 (ba.getD j (0, 0)).2 =
          markBond c (bt.getD j 0) (ba.getD j (0, 0)).1 (ba.getD j (0, 0)).2 := by
      intro j hj
      have hne : i ≠ j := fun e => hi (e ▸ hj)
      simp [List.getD_eq_getElem?_getD, List.getElem?_set_ne hne]
    by_cases hm : markBond c (bt.getD i 0) (ba.getD i (0, 0)).1 (ba.getD i (0, 0)).2 = true
    · rw [List.filter_cons_of_pos (by simpa using hm)]
      simp only [passAux]
      rw [if_pos hm]
      simp only []
      congr 1
      rw [ih _ hrest]
      exact List.filter_congr (fun j hj => by simpa using hsame j hj)
    · rw [List.filter_cons_of_neg (by simpa using hm)]
      simp only [passAux]
      rw [if_neg hm]
      exact ih _ hrest

/-- If the pass marks nothing, the bond type array is returned unchanged. -/
theorem passAux_fst_of_marks_nil (c : EvalCtx) (ba : List (Int × Int)) (l : List Nat)
    (bt : List Int) (h : (passAux c ba l bt).2 = []) : (passAux c ba l bt).1 = bt := by
  induction l generalizing bt with
  | nil => simp [passAux]
  | cons i rest ih =>
    by_cases hm : markBond c (bt.getD i 0) (ba.getD i (0, 0)).1 (ba.getD i (0, 0)).2 = true
    · simp only [passAux] at h
      rw [if_pos hm] at h
      cases h
    · simp only [passAux] at h ⊢
      rw [if_neg hm] at h ⊢
      exact ih _ h

/-- Setting a breakable entry (type ≥ 2) to 0 decreases the breakable count
    by exactly one. -/
theorem nbreak_set_zero (bt : List Int) (i : Nat) (h : 2 ≤ bt.getD i 0) :
    nbreak (bt.set i 0) + 1 = nbreak bt := by
  induction bt generalizing i with
  | nil => simp [List.getD_nil] at h
  | cons a r ih =>
    cases i with
    | zero =>
      have ha : (2 : Int) ≤ a := by simpa using h
      simp only [List.set_cons_zero, nbreak, List.countP_cons]
      have h2 : ¬((2 : Int) ≤ 0) := by omega
      simp only [ha, h2, decide_eq_true_eq]
      simp [ha, h2]
    | succ j =>
      have hj : 2 ≤ r.getD j 0 := by simpa using h
      simp only [List.set_cons_succ, nbreak, List.countP_cons]
      have := ih j hj
      unfold nbreak at this
      omega

/-- A marked bond had type ≥ 2 when it was examined. -/
theorem markBond_true_two_le (c : EvalCtx) (t a1 a2 : Int)
    (h : markBond c t a1 a2 = true) : 2 ≤ t := by
  have := (markBond_eq_true_iff c t a1 a2).1 h
  omega

/-- Conservation law of one pass: final breakable count plus number of
    marked bonds equals the initial breakable count. -/
theorem passAux_nbreak (c : EvalCtx) (ba : List (Int × Int)) (l : List Nat) (bt : List Int) :
    nbreak (passAux c ba l bt).1 + (passAux c ba l bt).2.length = nbreak bt := by
  induction l generalizing bt with
  | nil => simp [passAux]
  | cons i rest ih =>
    by_cases hm : markBond c (bt.getD i 0) (ba.getD i (0, 0)).1 (ba.getD i (0, 0)).2 = true
    · simp only [passAux]
      rw [if_pos hm]
      simp only [List.length_cons]
      have h2 : 2 ≤ bt.getD i 0 := markBond_true_two_le _ _ _ _ hm
      have hset := nbreak_set_zero bt i h2
      have := ih (bt.set i 0)
      omega
    · simp only [passAux]
      rw [if_neg hm]
      exact ih bt

/-- Pointwise description of the full pass over `List.range bt.length`. -/
theorem runPass_marks (c : EvalCtx) (ba : List (Int × Int)) (bt : List Int) :
    (runPass c ba bt).2 =
      (List.range bt.length).filter
        (fun i => markBond c (bt.getD i 0) (ba.getD i (0, 0)).1 (ba.getD i (0, 0)).2) :=
  passAux_marks c ba _ bt (List.nodup_range _)

/-- Conservation law for the full pass. -/
theorem runPass_nbreak (c : EvalCtx) (ba : List (Int × Int)) (bt : List Int) :
    nbreak (runPass c ba bt).1 + (runPass c ba bt).2.length = nbreak bt :=
  passAux_nbreak c ba _ bt

/-- A pass that marks nothing leaves the bond type array unchanged. -/
theorem runPass_fst_of_marks_nil (c : EvalCtx) (ba : List (Int × Int)) (bt : List Int)
    (h : (runPass c ba bt).2 = []) : (runPass c ba bt).1 = bt :=
  passAux_fst_of_marks_nil c ba _ bt h

/-- Membership in the marked list of a pass, unfolded to the pointwise
    criterion. -/
theorem mem_runPass_iff (c : EvalCtx) (ba : List (Int × Int)) (bt : List Int) (i : Nat) :
    i ∈ (runPass c ba bt).2 ↔
      i < bt.length ∧
        markBond c (bt.getD i 0) (ba.getD i (0, 0)).1 (ba.getD i (0, 0)).2 = true := by
  rw [runPass_marks, List.mem_filter, List.mem_range]

/-- With fuel exceeding the breakable count, the avalanche loop behaves as
    specified: it performs at least one iteration, the counts of all
    iterations before the last are positive, the last iteration's count is
    zero (the stability condition), and the number of minimize calls equals
    the number of iterations. -/
theorem avalancheFuel_spec (thr : List (Int × ℚ)) (ba : List (Int × Int))
    (snaps : Nat → List Int × List (ℚ × ℚ)) (L : ℚ) (fuel : Nat) :
    ∀ (k : Nat) (bt : List Int), nbreak bt < fuel →
      (avalancheFuel thr ba snaps L fuel k bt).2.1 ≠ [] ∧
      (avalancheFuel thr ba snaps L fuel k bt).2.1.getLast? = some 0 ∧
      (∀ x ∈ (avalancheFuel thr ba snaps L fuel k bt).2.1.dropLast, 0 < x) ∧
      (avalancheFuel thr ba snaps L fuel k bt).2.2 =
        k + (avalancheFuel thr ba snaps L fuel k bt).2.1.length := by
  induction fuel with
  | zero => intro k bt h; omega
  | succ f ih =>
    intro k bt h
    simp only [avalancheFuel]
    by_cases hz : (runPass (evalCtxAt thr L (snaps k)) ba bt).2.length = 0
    · rw [if_pos hz]
      exact ⟨by simp, by simp, by simp, by simp⟩
    · rw [if_neg hz]
      have hlt : nbreak (runPass (evalCtxAt thr L (snaps k)) ba bt).1 < f := by
        have hcons := runPass_nbreak (evalCtxAt thr L (snaps k)) ba bt
        omega
      obtain ⟨h1, h2, h3, h4⟩ := ih (k + 1) _ hlt
      obtain ⟨c0, cs, hcs⟩ :=
        List.exists_cons_of_ne_nil h1
      refine ⟨by simp, ?_, ?_, ?_⟩
      · simp only [hcs] at h2 ⊢
        rw [List.getLast?_cons_cons]
        exact h2
      · intro x hx
        rw [hcs, List.dropLast_cons_of_ne_nil (by simp)] at hx
        rcases List.mem_cons.1 hx with hx | hx
        · subst hx; omega
        · rw [hcs] at h3
          exact h3 x hx
      · simp only [List.length_cons]
        omega

/-- When the first relaxation leaves no bond over its threshold, the
    avalanche performs exactly one iteration, commits nothing, and returns. -/
theorem avalanche_of_first_stable (thr : List (Int × ℚ)) (ba : List (Int × Int))
    (snaps : Nat → List Int × List (ℚ × ℚ)) (L : ℚ) (k : Nat) (bt : List Int)
    (h : (runPass (evalCtxAt thr L (snaps k)) ba bt).2 = []) :
    avalanche thr ba snaps L k bt = (bt, [0], k + 1) := by
  unfold avalanche
  simp only [avalancheFuel]
  rw [if_pos (by rw [h]; rfl)]
  rw [runPass_fst_of_marks_nil _ _ _ h]

/-- `num_broken_total` after `n` steps is the starting value plus the sum
    of every iteration's `broken_this_iter`. -/
theorem runSteps_total (thr : List (Int × ℚ)) (ba : List (Int × Int))
    (snaps : Nat → List Int × List (ℚ × ℚ)) (L : ℚ) :
    ∀ (n k : Nat) (bt : List Int) (tot : Nat),
      (runSteps thr ba snaps L n k bt tot).2.2 =
        tot + (runIterCounts thr ba snaps L n k bt).sum := by
  intro n
  induction n with
  | zero => intro k bt tot; simp [runSteps, runIterCounts]
  | succ m ih =>
    intro k bt tot
    simp only [runSteps, runIterCounts, List.sum_append]
    rw [ih]
    omega

/-- The cumulative iteration-count sum grows with the number of steps. -/
theorem runIterCounts_sum_mono (thr : List (Int × ℚ)) (ba : List (Int × Int))
    (snaps : Nat → List Int × List (ℚ × ℚ)) (L : ℚ) :
    ∀ (n k : Nat) (bt : List Int),
      (runIterCounts thr ba snaps L n k bt).sum ≤
        (runIterCounts thr ba snaps L (n + 1) k bt).sum := by
  intro n
  induction n with
  | zero => intro k bt; simp [runIterCounts]
  | succ m ih =>
    intro k bt
    have e1 : runIterCounts thr ba snaps L (m + 1) k bt =
        (avalanche thr ba snaps L k bt).2.1 ++
          runIterCounts thr ba snaps L m (avalanche thr ba snaps L k bt).2.2
            (avalanche thr ba snaps L k bt).1 := rfl
    have e2 : runIterCounts thr ba snaps L (m + 1 + 1) k bt =
        (avalanche thr ba snaps L k bt).2.1 ++
          runIterCounts thr ba snaps L (m + 1) (avalanche thr ba snaps L k bt).2.2
            (avalanche thr ba snaps L k bt).1 := rfl
    rw [e1, e2, List.sum_append, List.sum_append]
    exact Nat.add_le_add_left (ih _ _) _

/-- `croundAway` rounds to a nearest integer. -/
theorem croundAway_nearest (q : ℚ) : |q - (croundAway q : ℚ)| ≤ 1/2 := by
  unfold croundAway
  by_cases h : 0 ≤ q
  · rw [if_pos h]
    have h1 : ((⌊q + 1/2⌋ : ℤ) : ℚ) ≤ q + 1/2 := Int.floor_le _
    have h2 : q + 1/2 < (⌊q + 1/2⌋ : ℤ) + 1 := Int.lt_floor_add_one _
    rw [abs_le]
    constructor <;> push_cast at h1 h2 ⊢ <;> linarith
  · rw [if_neg h]
    have h1 : q - 1/2 ≤ ((⌈q - 1/2⌉ : ℤ) : ℚ) := Int.le_ceil _
    have h2 : ((⌈q - 1/2⌉ : ℤ) : ℚ) < q - 1/2 + 1 := Int.ceil_lt_add_one _
    rw [abs_le]
    constructor <;> push_cast at h1 h2 ⊢ <;> linarith

/-- The rounding step of the minimum-image correction for two x-positions
    `0.1` and `L - 0.1` on a box of width `L > 0.4` selects the `-1`
    image. -/
theorem croundAway_sep (L : ℚ) (h : 2/5 < L) : croundAway ((1/5 - L) / L) = -1 := by
  have hL : 0 < L := lt_trans (by norm_num) h
  have hq : (1/5 - L) / L = 1/(5*L) - 1 := by field_simp
  have h5 : 0 < 5*L := by linarith
  have hlow : 0 < 1/(5*L) := by positivity
  have hhigh : 1/(5*L) < 1/2 := by
    rw [div_lt_div_iff₀ h5 (by norm_num)]
    linarith
  unfold croundAway
  rw [if_neg (by rw [hq]; linarith)]
  rw [hq]
  refine Int.ceil_eq_iff.2 ⟨?_, ?_⟩ <;> push_cast <;> linarith

/-- Rounding zero. -/
theorem croundAway_zero : croundAway 0 = 0 := by
  unfold croundAway
  norm_num

/-- The table fold never shrinks to empty once a record is inserted. -/
theorem thrTableFold_ne_nil (lines : List String) (m : List (Int × ℚ)) (hm : m ≠ []) :
    lines.foldl
      (fun m l =>
        match lineRecord l with
        | some r => mapSet m r.1 r.2
        | none => m) m ≠ [] := by
  induction lines generalizing m with
  | nil => simpa
  | cons l rest ih =>
    simp only [List.foldl_cons]
    cases hr : lineRecord l with
    | none => simpa [hr] using ih m hm
    | some r => simpa [hr] using ih _ (mapSet_ne_nil m r.1 r.2)

/-- The table fold is empty exactly when it started empty and no line
    contributed a record. -/
theorem thrTableFold_eq_nil_iff (lines : List String) (m : List (Int × ℚ)) :
    lines.foldl
      (fun m l =>
        match lineRecord l with
        | some r => mapSet m r.1 r.2
        | none => m) m = [] ↔ (m = [] ∧ ∀ l ∈ lines, lineRecord l = none) := by
  induction lines generalizing m with
  | nil => simp
  | cons l rest ih =>
    simp only [List.foldl_cons]
    cases hr : lineRecord l with
    | none =>
      simp only [hr]
      rw [ih]
      constructor
      · rintro ⟨h1, h2⟩
        exact ⟨h1, fun x hx => by
          rcases List.mem_cons.1 hx with hx | hx
          · subst hx; exact hr
          · exact h2 x hx⟩
      · rintro ⟨h1, h2⟩
        exact ⟨h1, fun x hx => h2 x (List.mem_cons_of_mem _ hx)⟩
    | some r =>
      simp only [hr]
      constructor
      · intro hfold
        exact absurd hfold (thrTableFold_ne_nil rest _ (mapSet_ne_nil m r.1 r.2))
      · rintro ⟨-, h2⟩
        have := h2 l (List.mem_cons_self _ _)
        rw [hr] at this
        cases this

/-- Lookup in the accumulated table: the most recent valid record for a
    key wins, falling back to the accumulator. -/
theorem mlookup_thrTableFold (lines : List String) (m : List (Int × ℚ)) (t : Int) :
    mlookup t
      (lines.foldl
        (fun m l =>
          match lineRecord l with
          | some r => mapSet m r.1 r.2
          | none => m) m) =
      (((lines.filterMap lineRecord).reverse.find? (fun p => p.1 == t)).map Prod.snd).or
        (mlookup t m) := by
  induction lines generalizing m with
  | nil => simp
  | cons l rest ih =>
    simp only [List.foldl_cons]
    cases hr : lineRecord l with
    | none =>
      rw [List.filterMap_cons_none hr]
      exact ih m
    | some r =>
      rw [List.filterMap_cons_some hr, List.reverse_cons, List.find?_append]
      rw [ih (mapSet m r.1 r.2)]
      cases hf : (rest.filterMap lineRecord).reverse.find? (fun p => p.1 == t) with
      | some p => simp
      | none =>
        simp only [Option.none_or, Option.map_none', Option.none_or]
        rw [mlookup_mapSet]
        by_cases hrt : r.1 = t
        · rw [if_pos hrt.symm]
          have : List.find? (fun p => p.1 == t) [r] = some r := by
            simp [List.find?_cons_of_pos, hrt]
          rw [this]
          rfl
        · rw [if_neg (fun e => hrt e.symm)]
          have : List.find? (fun p => p.1 == t) [r] = none := by
            simp [hrt]
          rw [this]
          rfl

/-- Blank and comment lines contribute no record. -/
theorem lineRecord_skip (l : String) (h : l = "" ∨ l.front = '#') : lineRecord l = none := by
  unfold lineRecord
  rcases h with h | h
  · subst h
    rfl
  · by_cases he : l.isEmpty = true
    · rw [if_pos he]
    · rw [if_neg he, if_pos h]

/-- A line contributing no record is invisible to the parser. -/
theorem thrTableOf_cons_none (l : String) (lines : List String) (h : lineRecord l = none) :
    thrTableOf (l :: lines) = thrTableOf lines := by
  unfold thrTableOf
  simp [List.foldl_cons, h]

/-- The empty-index pass with null flags returns immediately. -/
theorem passRawAux_nil (nf : NullFlags) (c : EvalCtx) (ba : List (Int × Int)) (bt : List Int) :
    passRawAux nf c ba [] bt = .ok (bt, []) := rfl

/-- A bond of broken or unbreakable type is never marked. -/
theorem markBond_of_le (c : EvalCtx) (t a1 a2 : Int) (h : t ≤ 1) :
    markBond c t a1 a2 = false := by
  unfold markBond
  rw [if_pos h]

/-- A bond whose type has no threshold entry is never marked. -/
theorem markBond_of_lookup_none (c : EvalCtx) (t a1 a2 : Int) (h1 : ¬t ≤ 1)
    (h : mlookup t c.thresholds = none) : markBond c t a1 a2 = false := by
  unfold markBond
  rw [if_neg h1, h]

/-- With a threshold entry present, marking reduces to the length test. -/
theorem markBond_of_lookup_some (c : EvalCtx) (t a1 a2 : Int) (bl : ℚ) (h1 : ¬t ≤ 1)
    (h : mlookup t c.thresholds = some bl) :
    markBond c t a1 a2 =
      sqrtExceeds
        (bondDistSq c.L (c.pos.getD ((mlookup a1 c.tmap).getD 0) (0, 0))
          (c.pos.getD ((mlookup a2 c.tmap).getD 0) (0, 0))) bl := by
  unfold markBond
  rw [if_neg h1, h]

/-- With all pointers valid the null-modelled pass agrees with the pure
    pass. -/
theorem passRawAux_noNulls (c : EvalCtx) (ba : List (Int × Int)) :
    ∀ (l : List Nat) (bt : List Int),
      passRawAux noNulls c ba l bt = .ok (passAux c ba l bt) := by
  intro l
  induction l with
  | nil => intro bt; rfl
  | cons i rest ih =>
    intro bt
    simp only [passRawAux, passAux, Bool.false_eq_true, if_false,
      (show noNulls.bondTypeNull = false from rfl),
      (show noNulls.bondAtomNull = false from rfl),
      (show noNulls.xNull = false from rfl)]
    by_cases ht : bt.getD i 0 ≤ 1
    · rw [if_pos ht, markBond_of_le c _ _ _ ht, ih bt]
      rfl
    · rw [if_neg ht]
      cases hl : mlookup (bt.getD i 0) c.thresholds with
      | none =>
        rw [markBond_of_lookup_none c _ _ _ ht hl, ih bt]
        rfl
      | some bl =>
        rw [markBond_of_lookup_some c _ _ _ bl ht hl, ih bt, ih (bt.set i 0)]
        simp only [List.getD_eq_getElem?_getD]
        split <;> rfl

/-- An avalanche on an empty bond array with an atomless snapshot finishes
    in one iteration whatever the null flags, provided the `nbond` pointer
    itself is valid: nothing is ever read through the other pointers. -/
theorem avalancheRaw_nil (thr : List (Int × ℚ)) (ba : List (Int × Int))
    (snaps : Nat → List Int × List (ℚ × ℚ)) (L : ℚ) (nf : NullFlags) (k : Nat)
    (hsn : (snaps k).1.length = 0) (hnb : nf.nbondNull = false) :
    avalancheRaw thr ba snaps L nf k [] = .ok ([], k + 1) := by
  unfold avalancheRaw
  simp only [avalancheRawFuel, hnb, hsn, Bool.false_eq_true, if_false,
    (show decide ((0 : Nat) ≠ 0) = false from rfl), Bool.and_false,
    List.length_nil, List.range_zero, passRawAux_nil]
  rfl

/-- The strain-step loop on an empty network exits 0 regardless of array
    null flags (other than `nbond`). -/
theorem stepsLoop_nil (thr : List (Int × ℚ)) (ba : List (Int × Int))
    (snaps : Nat → List Int × List (ℚ × ℚ)) (L : ℚ) (nf : NullFlags)
    (hsn : ∀ j, (snaps j).1.length = 0) (hnb : nf.nbondNull = false) :
    ∀ (n k : Nat), stepsLoop thr ba snaps L nf n k [] = .exit 0 := by
  intro n
  induction n with
  | zero => intro k; rfl
  | succ m ih =>
    intro k
    simp only [stepsLoop]
    rw [avalancheRaw_nil thr ba snaps L nf k (hsn k) hnb]
    exact ih (k + 1)

/-- `runSetup` only consults the executor on the given commands. -/
theorem runSetup_congr (e1 e2 : String → Option String) :
    ∀ l : List String, (∀ c ∈ l, e1 c = e2 c) → runSetup e1 l = runSetup e2 l := by
  intro l
  induction l with
  | nil => intro _; rfl
  | cons cmd rest ih =>
    intro h
    simp only [runSetup]
    rw [h cmd (List.mem_cons_self _ _)]
    cases e2 cmd with
    | none => exact ih (fun c hc => h c (List.mem_cons_of_mem _ hc))
    | some msg => rfl

/-- A failing command anywhere in the setup list makes setup return 1. -/
theorem runSetup_eq_some_one (e : String → Option String) :
    ∀ l : List String, (∃ c ∈ l, e c ≠ none) → runSetup e l = some 1 := by
  intro l
  induction l with
  | nil => rintro ⟨c, hc, -⟩; cases hc
  | cons cmd rest ih =>
    rintro ⟨c, hc, hne⟩
    simp only [runSetup]
    cases hcmd : e cmd with
    | some msg => rfl
    | none =>
      refine ih ⟨c, ?_, hne⟩
      rcases List.mem_cons.1 hc with hc | hc
      · subst hc; exact absurd hcmd hne
      · exact hc

/-- Error-free setup returns no exit code. -/
theorem runSetup_eq_none (e : String → Option String) :
    ∀ l : List String, (∀ c ∈ l, e c = none) → runSetup e l = none := by
  intro l
  induction l with
  | nil => intro _; rfl
  | cons cmd rest ih =>
    intro h
    simp only [runSetup]
    rw [h cmd (List.mem_cons_self _ _)]
    exact ih (fun c hc => h c (List.mem_cons_of_mem _ hc))

/-- Reduction of the parser on an opened resource. -/
theorem parse_thresholds_some (lines : List String) :
    parse_thresholds (some lines) =
      if (thrTableOf lines).isEmpty = true then Except.error "no valid threshold found"
      else Except.ok (thrTableOf lines) := rfl

/-!
Claim theorems.
-/

/-- C5: the minimum-image correction uses round-to-nearest semantics
    (`croundAway` is always within 1/2 of its argument) and applies only to
    the x axis: for a periodic box of width `L > 2/5`, atoms at `x = 0.1`
    and `x = L - 0.1` evaluate to squared separation `1/25` (separation
    `0.2`), which differs from `(L - 0.2)^2`; the same two coordinates
    placed on the y axis keep the uncorrected squared separation
    `(L - 0.2)^2`. -/
theorem C5_minimum_image_round :
    (∀ q : ℚ, |q - (croundAway q : ℚ)| ≤ 1/2) ∧
    ∀ L : ℚ, 2/5 < L →
      bondDistSq L (1/10, 0) (L - 1/10, 0) = 1/25 ∧
      (L - 1/5) * (L - 1/5) ≠ 1/25 ∧
      bondDistSq L (0, 1/10) (0, L - 1/10) = (L - 1/5) * (L - 1/5) := by
  refine ⟨croundAway_nearest, fun L hL => ⟨?_, ?_, ?_⟩⟩
  · have h1 : (1/10 : ℚ) - (L - 1/10) = 1/5 - L := by ring
    have hc : croundAway (((1/10 : ℚ) - (L - 1/10)) / L) = -1 := by
      rw [h1]
      exact croundAway_sep L hL
    simp only [bondDistSq, minImageDx]
    rw [hc]
    push_cast
    ring
  · have h2 : (1/5 : ℚ) < L - 1/5 := by linarith
    intro heq
    nlinarith
  · simp only [bondDistSq, minImageDx, sub_self, zero_div, croundAway_zero]
    push_cast
    ring

/-- C5 witness at a concrete box width `L = 10`. -/
theorem C5_minimum_image_round_witness :
    |(7/10 : ℚ) - (croundAway (7/10) : ℚ)| ≤ 1/2 ∧
    ((2 : ℚ)/5 < 10 ∧
      bondDistSq 10 (1/10, 0) (10 - 1/10, 0) = 1/25 ∧
      ((10 : ℚ) - 1/5) * (10 - 1/5) ≠ 1/25 ∧
      bondDistSq 10 (0, 1/10) (0, 10 - 1/10) = ((10 : ℚ) - 1/5) * (10 - 1/5)) :=
  ⟨C5_minimum_image_round.1 (7/10),
    by norm_num, C5_minimum_image_round.2 10 (by norm_num)⟩

/-- C6: `parse_thresholds` fails exactly when the resource cannot be
    opened or no line yields a valid record; a line yielding no record is
    silently skipped (the parse result is unchanged by removing it), and
    blank or `#`-comment lines yield no record, so a file of only comments
    and blanks fails with the configuration error. -/
theorem C6_thresholds_config_error :
    (∀ content : Option (List String),
      isErr (parse_thresholds content) = true ↔
        (content = none ∨ ∀ l ∈ content.getD [], lineRecord l = none)) ∧
    (∀ (l : String) (lines : List String), lineRecord l = none →
      parse_thresholds (some (l :: lines)) = parse_thresholds (some lines)) ∧
    (∀ l : String, l = "" ∨ l.front = '#' → lineRecord l = none) := by
  refine ⟨?_, ?_, lineRecord_skip⟩
  · intro content
    cases content with
    | none => simp [parse_thresholds, isErr]
    | some lines =>
      have hiff := thrTableFold_eq_nil_iff lines []
      constructor
      · intro h
        refine Or.inr ?_
        rw [parse_thresholds_some] at h
        by_cases he : (thrTableOf lines).isEmpty = true
        · have hnil : thrTableOf lines = [] := by
            rwa [List.isEmpty_iff] at he
          simpa using (hiff.1 hnil).2
        · rw [if_neg he] at h
          simp [isErr] at h
      · intro h
        rcases h with h | h
        · cases h
        · have hnil : thrTableOf lines = [] := hiff.2 ⟨rfl, by simpa using h⟩
          rw [parse_thresholds_some, if_pos (by rwa [List.isEmpty_iff])]
          rfl
  · intro l lines h
    rw [parse_thresholds_some, parse_thresholds_some, thrTableOf_cons_none l lines h]

/-- C6 witness: a comments-and-blank file errors; a comment line is
    invisible; a comment line yields no record. -/
theorem C6_thresholds_config_error_witness :
    isErr (parse_thresholds (some ["# only comments", "", "  "])) = true ∧
    parse_thresholds (some ["# c", "2 1.5"]) = parse_thresholds (some ["2 1.5"]) ∧
    lineRecord "# c" = none :=
  ⟨(C6_thresholds_config_error.1 (some ["# only comments", "", "  "])).mpr
      (Or.inr (by decide)),
    C6_thresholds_config_error.2.1 "# c" ["2 1.5"] (by decide),
    C6_thresholds_config_error.2.2 "# c" (Or.inr (by decide))⟩

/-- C10: with duplicate bond types in the file, lookup returns the break
    length of the most recent valid record (the reversed record list's
    first match for the key), and loading succeeds whenever at least one
    valid record exists. -/
theorem C10_thresholds_last_wins :
    (∀ (lines : List String) (t : Int),
      mlookup t (thrTableOf lines) =
        (((lines.filterMap lineRecord).reverse.find? (fun p => p.1 == t)).map Prod.snd)) ∧
    ∀ lines : List String, lines.filterMap lineRecord ≠ [] →
      isErr (parse_thresholds (some lines)) = false := by
  constructor
  · intro lines t
    have h := mlookup_thrTableFold lines [] t
    simpa [mlookup] using h
  · intro lines h
    have hrec : ∃ l ∈ lines, lineRecord l ≠ none := by
      by_contra hc
      push_neg at hc
      exact h (by
        rw [List.filterMap_eq_nil_iff]
        intro a ha
        exact hc a ha)
    obtain ⟨l, hl, hr⟩ := hrec
    have hne : ¬thrTableOf lines = [] := fun he =>
      hr (((thrTableFold_eq_nil_iff lines []).1 he).2 l hl)
    rw [parse_thresholds_some, if_neg (by
      rw [List.isEmpty_iff]
      exact hne)]
    rfl

/-- C10 witness: two records for bond type 2; the later one (2.5) wins and
    loading succeeds. -/
theorem C10_thresholds_last_wins_witness :
    mlookup 2 (thrTableOf ["2 1.5", "2 2.5"]) =
      ((((["2 1.5", "2 2.5"].filterMap lineRecord)).reverse.find?
        (fun p => p.1 == 2)).map Prod.snd) ∧
    (["2 1.5", "2 2.5"].filterMap lineRecord ≠ []) ∧
    isErr (parse_thresholds (some ["2 1.5", "2 2.5"])) = false :=
  ⟨C10_thresholds_last_wins.1 ["2 1.5", "2 2.5"] 2, by decide,
    C10_thresholds_last_wins.2 ["2 1.5", "2 2.5"] (by decide)⟩

/-- C7: `num_broken_total` after `n` strain steps equals the sum over all
    steps and avalanche iterations of the per-iteration broken counts (all
    naturals, hence non-negative), and it never decreases as steps
    progress. -/
theorem C7_cumulative_broken_monotone :
    ∀ (thr : List (Int × ℚ)) (ba : List (Int × Int))
      (snaps : Nat → List Int × List (ℚ × ℚ)) (L : ℚ) (n k : Nat) (bt : List Int),
      (runSteps thr ba snaps L n k bt 0).2.2 =
        (runIterCounts thr ba snaps L n k bt).sum ∧
      (runSteps thr ba snaps L n k bt 0).2.2 ≤
        (runSteps thr ba snaps L (n + 1) k bt 0).2.2 ∧
      ∀ cnt ∈ runIterCounts thr ba snaps L n k bt, 0 ≤ cnt := by
  intro thr ba snaps L n k bt
  refine ⟨by simpa using runSteps_total thr ba snaps L n k bt 0, ?_,
    fun cnt _ => Nat.zero_le cnt⟩
  rw [runSteps_total thr ba snaps L n k bt 0,
    runSteps_total thr ba snaps L (n + 1) k bt 0]
  simpa using runIterCounts_sum_mono thr ba snaps L n k bt

/-- C8: terminal-state semantics of the avalanche loop: the iteration
    count list is non-empty, its last entry is 0 (the loop exits exactly
    when an iteration marks zero bonds), every earlier entry is positive,
    the number of relaxations (minimize calls) equals the number of
    iterations, and if the first evaluation pass marks nothing the loop
    performs exactly one relaxation, commits nothing, and returns. -/
theorem C8_avalanche_termination :
    ∀ (thr : List (Int × ℚ)) (ba : List (Int × Int))
      (snaps : Nat → List Int × List (ℚ × ℚ)) (L : ℚ) (k : Nat) (bt : List Int),
      (avalanche thr ba snaps L k bt).2.1 ≠ [] ∧
      (avalanche thr ba snaps L k bt).2.1.getLast? = some 0 ∧
      (∀ x ∈ (avalanche thr ba snaps L k bt).2.1.dropLast, 0 < x) ∧
      (avalanche thr ba snaps L k bt).2.2 =
        k + (avalanche thr ba snaps L k bt).2.1.length ∧
      ((runPass (evalCtxAt thr L (snaps k)) ba bt).2 = [] →
        avalanche thr ba snaps L k bt = (bt, [0], k + 1)) := by
  intro thr ba snaps L k bt
  obtain ⟨h1, h2, h3, h4⟩ :=
    avalancheFuel_spec thr ba snaps L (nbreak bt + 1) k bt (Nat.lt_succ_self _)
  exact ⟨h1, h2, h3, h4, avalanche_of_first_stable thr ba snaps L k bt⟩

/-- C8 witness: a one-bond network whose bond is below threshold after the
    first relaxation: one iteration, zero breaks. -/
theorem C8_avalanche_termination_witness :
    (runPass (evalCtxAt [((2 : Int), (3/2 : ℚ))] 100 ([1, 2], [(0, 0), (1, 0)]))
        [((1 : Int), (2 : Int))] [2]).2 = [] ∧
    avalanche [((2 : Int), (3/2 : ℚ))] [((1 : Int), (2 : Int))]
        (fun _ => ([1, 2], [(0, 0), (1, 0)])) 100 0 [2] = ([2], [0], 1) :=
  ⟨by with_unfolding_all rfl,
    (C8_avalanche_termination [((2 : Int), (3/2 : ℚ))] [((1 : Int), (2 : Int))]
      (fun _ => ([1, 2], [(0, 0), (1, 0)])) 100 0 [2]).2.2.2.2
      (by with_unfolding_all rfl)⟩

/-- C9: one evaluation pass is a pure, order-independent function of the
    snapshot, bonds, geometry and table: the marked set of the sequential
    (mutating) pass equals the pointwise filter of the breaking criterion
    over the initial arrays — so breaking bond `i` never changes the
    decision for bond `j` — and the multiset of marked bond records is
    invariant under any permutation of the bond record list. -/
theorem C9_pass_order_independent :
    (∀ (c : EvalCtx) (ba : List (Int × Int)) (bt : List Int),
      (runPass c ba bt).2 =
        (List.range bt.length).filter
          (fun i => markBond c (bt.getD i 0) (ba.getD i (0, 0)).1 (ba.getD i (0, 0)).2)) ∧
    ∀ (c : EvalCtx) (recs1 recs2 : List (Int × Int × Int)),
      recs1.Perm recs2 →
        (recs1.filter (fun r => markBond c r.1 r.2.1 r.2.2)).Perm
          (recs2.filter (fun r => markBond c r.1 r.2.1 r.2.2)) :=
  ⟨runPass_marks, fun _ _ _ h => h.filter _⟩

/-- C9 witness: a two-record list and a transposition of it mark the same
    records. -/
theorem C9_pass_order_independent_witness :
    ((runPass ⟨[((2 : Int), (1 : ℚ))], tmapOf [1, 2], [(0, 0), (5, 0)], 100⟩
        [((1 : Int), (2 : Int))] [2]).2 =
      (List.range ([(2 : Int)] : List Int).length).filter
        (fun i =>
          markBond ⟨[((2 : Int), (1 : ℚ))], tmapOf [1, 2], [(0, 0), (5, 0)], 100⟩
            (([(2 : Int)] : List Int).getD i 0)
            (([((1 : Int), (2 : Int))] : List (Int × Int)).getD i (0, 0)).1
            (([((1 : Int), (2 : Int))] : List (Int × Int)).getD i (0, 0)).2)) ∧
    ([((2 : Int), (1 : Int), (2 : Int)), (3, 5, 6)].Perm
        [((3 : Int), (5 : Int), (6 : Int)), (2, 1, 2)] ∧
      (([((2 : Int), (1 : Int), (2 : Int)), (3, 5, 6)]).filter
          (fun r =>
            markBond ⟨[((2 : Int), (1 : ℚ))], tmapOf [1, 2], [(0, 0), (5, 0)], 100⟩
              r.1 r.2.1 r.2.2)).Perm
        (([((3 : Int), (5 : Int), (6 : Int)), (2, 1, 2)]).filter
          (fun r =>
            markBond ⟨[((2 : Int), (1 : ℚ))], tmapOf [1, 2], [(0, 0), (5, 0)], 100⟩
              r.1 r.2.1 r.2.2))) :=
  ⟨C9_pass_order_independent.1 _ [((1 : Int), (2 : Int))] [2],
    by decide,
    C9_pass_order_independent.2 _ _ _ (by decide)⟩

/-- C1 counterexample: bond 0's second endpoint tag 99 does not resolve in
    the snapshot with tags `[1, 2]`, yet the evaluator marks the bond
    (tag 99 silently resolves to local index 0), whereas with the bond
    absent nothing is marked — the bond is neither skipped nor treated as
    absent. -/
theorem C1_counterexample :
    ((99 : Int) ∉ ([1, 2] : List Int)) ∧
    (runPass ⟨[((2 : Int), (1 : ℚ))], tmapOf [1, 2], [(0, 0), (5, 0)], 100⟩
        [((2 : Int), (99 : Int))] [2]).2 = [0] ∧
    (runPass ⟨[((2 : Int), (1 : ℚ))], tmapOf [1, 2], [(0, 0), (5, 0)], 100⟩ [] []).2 = [] :=
  ⟨by decide, by with_unfolding_all rfl, by with_unfolding_all rfl⟩

/-- C1 amended: an endpoint tag that does not resolve in the snapshot is
    not skipped: the `std::map::operator[]` lookup default-inserts local
    index 0, so the bond is evaluated — and marked iff its type is ≥ 2,
    has a threshold entry, and the distance computed *using atom 0's
    position for the unresolved endpoint* strictly exceeds it. -/
theorem C1_unresolved_tag_default_index :
    ∀ (thr : List (Int × ℚ)) (tags : List Int) (pos : List (ℚ × ℚ)) (L : ℚ)
      (ba : List (Int × Int)) (bt : List Int) (i : Nat),
      (ba.getD i (0, 0)).2 ∉ tags →
        (mlookup (ba.getD i (0, 0)).2 (tmapOf tags) = none ∧
          (i ∈ (runPass ⟨thr, tmapOf tags, pos, L⟩ ba bt).2 ↔
            i < bt.length ∧ 1 < bt.getD i 0 ∧
              ∃ bl, mlookup (bt.getD i 0) thr = some bl ∧
                (bl : ℝ) < Real.sqrt
                  ((bondDistSq L
                    (pos.getD ((mlookup (ba.getD i (0, 0)).1 (tmapOf tags)).getD 0) (0, 0))
                    (pos.getD 0 (0, 0)) : ℚ) : ℝ))) := by
  intro thr tags pos L ba bt i hmem
  have hnone := mlookup_tmapOf_of_not_mem tags _ hmem
  refine ⟨hnone, ?_⟩
  rw [mem_runPass_iff,
    markBond_eq_true_iff ⟨thr, tmapOf tags, pos, L⟩ (bt.getD i 0)
      (ba.getD i (0, 0)).1 (ba.getD i (0, 0)).2]
  simp only [hnone, Option.getD_none]
  constructor
  · rintro ⟨hlen, ht, bl, hbl, hs⟩
    exact ⟨hlen, ht, bl, hbl, (sqrtExceeds_iff_sqrt _ _ (bondDistSq_nonneg _ _ _)).1 hs⟩
  · rintro ⟨hlen, ht, bl, hbl, hs⟩
    exact ⟨hlen, ht, bl, hbl, (sqrtExceeds_iff_sqrt _ _ (bondDistSq_nonneg _ _ _)).2 hs⟩

/-- C1 witness: the amended behaviour at the counterexample input. -/
theorem C1_unresolved_tag_default_index_witness :
    ((([((2 : Int), (99 : Int))] : List (Int × Int)).getD 0 (0, 0)).2 ∉ ([1, 2] : List Int)) ∧
    (mlookup (([((2 : Int), (99 : Int))] : List (Int × Int)).getD 0 (0, 0)).2
        (tmapOf [1, 2]) = none ∧
      (0 ∈ (runPass ⟨[((2 : Int), (1 : ℚ))], tmapOf [1, 2], [(0, 0), (5, 0)], 100⟩
          [((2 : Int), (99 : Int))] [2]).2 ↔
        0 < ([(2 : Int)] : List Int).length ∧ 1 < ([(2 : Int)] : List Int).getD 0 0 ∧
          ∃ bl, mlookup (([(2 : Int)] : List Int).getD 0 0) [((2 : Int), (1 : ℚ))] = some bl ∧
            (bl : ℝ) < Real.sqrt
              ((bondDistSq 100
                (([((0 : ℚ), (0 : ℚ)), (5, 0)]).getD
                  ((mlookup (([((2 : Int), (99 : Int))] : List (Int × Int)).getD 0 (0, 0)).1
                    (tmapOf [1, 2])).getD 0) (0, 0))
                (([((0 : ℚ), (0 : ℚ)), (5, 0)]).getD 0 (0, 0)) : ℚ) : ℝ))) :=
  ⟨by decide,
    C1_unresolved_tag_default_index [((2 : Int), (1 : ℚ))] [1, 2] [(0, 0), (5, 0)] 100
      [((2 : Int), (99 : Int))] [2] 0 (by decide)⟩

/-- C4 counterexample: bond 0 (type 2, threshold 3) has an unresolved
    endpoint tag 77, so the claim's right-hand side is false for it, yet
    the evaluator marks it: the distance from the resolved endpoint to
    atom 0's position (4 > 3) is used. -/
theorem C4_counterexample :
    ((77 : Int) ∉ ([5, 6] : List Int)) ∧
    (runPass ⟨[((2 : Int), (3 : ℚ))], tmapOf [5, 6], [(0, 0), (4, 0)], 1000⟩
        [((6 : Int), (77 : Int))] [2]).2 = [0] :=
  ⟨by decide, by with_unfolding_all rfl⟩

/-- C4 amended: for a bond whose endpoint tags both resolve, the evaluator
    marks it iff its type `t` satisfies `t ≥ 2`, `t` has a threshold
    entry, and the 2D minimum-image distance of the resolved endpoint
    positions strictly exceeds the entry; unconditionally, a bond of type
    ≤ 1 or whose type has no entry is never marked. -/
theorem C4_breaking_criterion :
    (∀ (c : EvalCtx) (ba : List (Int × Int)) (bt : List Int) (i j1 j2 : Nat),
      mlookup (ba.getD i (0, 0)).1 c.tmap = some j1 →
      mlookup (ba.getD i (0, 0)).2 c.tmap = some j2 →
        (i ∈ (runPass c ba bt).2 ↔
          i < bt.length ∧ 1 < bt.getD i 0 ∧
            ∃ bl, mlookup (bt.getD i 0) c.thresholds = some bl ∧
              (bl : ℝ) < Real.sqrt
                ((bondDistSq c.L (c.pos.getD j1 (0, 0)) (c.pos.getD j2 (0, 0)) : ℚ) : ℝ))) ∧
    ∀ (c : EvalCtx) (ba : List (Int × Int)) (bt : List Int) (i : Nat),
      (bt.getD i 0 ≤ 1 ∨ mlookup (bt.getD i 0) c.thresholds = none) →
        i ∉ (runPass c ba bt).2 := by
  constructor
  · intro c ba bt i j1 j2 hj1 hj2
    rw [mem_runPass_iff,
      markBond_eq_true_iff c (bt.getD i 0) (ba.getD i (0, 0)).1 (ba.getD i (0, 0)).2]
    simp only [hj1, hj2, Option.getD_some]
    constructor
    · rintro ⟨hlen, ht, bl, hbl, hs⟩
      exact ⟨hlen, ht, bl, hbl, (sqrtExceeds_iff_sqrt _ _ (bondDistSq_nonneg _ _ _)).1 hs⟩
    · rintro ⟨hlen, ht, bl, hbl, hs⟩
      exact ⟨hlen, ht, bl, hbl, (sqrtExceeds_iff_sqrt _ _ (bondDistSq_nonneg _ _ _)).2 hs⟩
  · intro c ba bt i h hmem
    rw [mem_runPass_iff] at hmem
    obtain ⟨hlen, hmb⟩ := hmem
    by_cases ht : bt.getD i 0 ≤ 1
    · rw [markBond_of_le c _ _ _ ht] at hmb
      cases hmb
    · rcases h with h | h
      · exact ht h
      · rw [markBond_of_lookup_none c _ _ _ ht h] at hmb
        cases hmb

/-- C4 witness: a fully resolved bond (type 2, threshold 1.5, length 2)
    and an unbreakable bond (type 1). -/
theorem C4_breaking_criterion_witness :
    (mlookup (([((1 : Int), (2 : Int))] : List (Int × Int)).getD 0 (0, 0)).1
        (EvalCtx.mk [((2 : Int), (3/2 : ℚ))] (tmapOf [1, 2]) [(0, 0), (2, 0)] 100).tmap =
      some 0) ∧
    ((0 ∈ (runPass (EvalCtx.mk [((2 : Int), (3/2 : ℚ))] (tmapOf [1, 2]) [(0, 0), (2, 0)] 100)
        [((1 : Int), (2 : Int))] [2]).2 ↔
      0 < ([(2 : Int)] : List Int).length ∧ 1 < ([(2 : Int)] : List Int).getD 0 0 ∧
        ∃ bl, mlookup (([(2 : Int)] : List Int).getD 0 0)
            (EvalCtx.mk [((2 : Int), (3/2 : ℚ))] (tmapOf [1, 2]) [(0, 0), (2, 0)] 100).thresholds =
            some bl ∧
          (bl : ℝ) < Real.sqrt
            ((bondDistSq
              (EvalCtx.mk [((2 : Int), (3/2 : ℚ))] (tmapOf [1, 2]) [(0, 0), (2, 0)] 100).L
              ((EvalCtx.mk [((2 : Int), (3/2 : ℚ))] (tmapOf [1, 2]) [(0, 0), (2, 0)] 100).pos.getD
                0 (0, 0))
              ((EvalCtx.mk [((2 : Int), (3/2 : ℚ))] (tmapOf [1, 2]) [(0, 0), (2, 0)] 100).pos.getD
                1 (0, 0)) : ℚ) : ℝ)) ∧
    0 ∉ (runPass (EvalCtx.mk [((2 : Int), (3/2 : ℚ))] (tmapOf [1, 2]) [(0, 0), (2, 0)] 100)
        [((1 : Int), (2 : Int))] [1]).2) :=
  ⟨by decide,
    C4_breaking_criterion.1 (EvalCtx.mk [((2 : Int), (3/2 : ℚ))] (tmapOf [1, 2])
        [(0, 0), (2, 0)] 100) [((1 : Int), (2 : Int))] [2] 0 0 1
      (by decide) (by decide),
    C4_breaking_criterion.2 (EvalCtx.mk [((2 : Int), (3/2 : ℚ))] (tmapOf [1, 2])
        [(0, 0), (2, 0)] 100) [((1 : Int), (2 : Int))] [1] 0 (Or.inl (by decide))⟩

/-- Reduction of `runMain` past a successful threshold parse. -/
theorem runMain_unfold (thrC : Option (List String)) (dataFile : String) (n : Nat)
    (op : Bool) (e : String → Option String) (sn : Nat → List Int × List (ℚ × ℚ))
    (ba : List (Int × Int)) (bt0 : List Int) (lo hi : ℚ) (nf : NullFlags)
    (tbl : List (Int × ℚ)) (hp : parse_thresholds thrC = .ok tbl) :
    runMain thrC dataFile n ⟨op, e, sn, ba, bt0, lo, hi, nf⟩ =
      if op then
        match runSetup e (setupCmds dataFile) with
        | some code => .exit code
        | none => stepsLoop tbl ba sn (hi - lo) nf n 0 bt0
      else .thrown "Failed to initialize LAMMPS" := by
  unfold runMain
  rw [hp]

/-- With a null `nbond` pointer every avalanche iteration crashes at its
    first dereference (`main.cpp` line 212). -/
theorem avalancheRaw_nbond_null (thr : List (Int × ℚ)) (ba : List (Int × Int))
    (snaps : Nat → List Int × List (ℚ × ℚ)) (L : ℚ) (nf : NullFlags) (k : Nat)
    (bt : List Int) (h : nf.nbondNull = true) :
    avalancheRaw thr ba snaps L nf k bt = .error "nbond" := by
  unfold avalancheRaw
  simp only [avalancheRawFuel]
  rw [if_pos h]

/-- C2 counterexample: the positions pointer is null (`xNull = true`) for
    a bond-free, atom-free configuration, and the run does not abort: it
    completes all 10 steps and exits 0 — no `SolverDataUnavailable`
    condition, no non-zero exit. -/
theorem C2_counterexample :
    (NullFlags.mk true false false false false).xNull = true ∧
    runMain (some ["2 1.5"]) "net.data" 10
      (SolverModel.mk true (fun _ => none) (fun _ => ([], [])) [] [] 0 20
        (NullFlags.mk true false false false false)) = .exit 0 :=
  ⟨rfl, by with_unfolding_all rfl⟩

/-- C2 amended: the driver performs no availability checks on the data it
    obtains from the solver.  A null array pointer that is never indexed
    (here: every pointer except `nbond`, on a run with no atoms and no
    bonds) does not abort the run, which exits 0; a null `nbond` pointer
    is dereferenced unconditionally in the first avalanche iteration and
    the run dies at that dereference — there is no
    `SolverDataUnavailable` reporting path. -/
theorem C2_no_availability_checks :
    (∀ (thrC : Option (List String)) (dataFile : String) (n : Nat)
       (e : String → Option String) (ba : List (Int × Int)) (lo hi : ℚ)
       (x b a tg : Bool) (tbl : List (Int × ℚ)),
      parse_thresholds thrC = .ok tbl →
      (∀ cmd ∈ setupCmds dataFile, e cmd = none) →
      runMain thrC dataFile n
        ⟨true, e, fun _ => ([], []), ba, [], lo, hi, ⟨x, b, a, tg, false⟩⟩ = .exit 0) ∧
    ∀ (thrC : Option (List String)) (dataFile : String) (n : Nat)
      (e : String → Option String) (sn : Nat → List Int × List (ℚ × ℚ))
      (ba : List (Int × Int)) (bt0 : List Int) (lo hi : ℚ)
      (x b a tg : Bool) (tbl : List (Int × ℚ)),
      parse_thresholds thrC = .ok tbl →
      (∀ cmd ∈ setupCmds dataFile, e cmd = none) →
      1 ≤ n →
      runMain thrC dataFile n
        ⟨true, e, sn, ba, bt0, lo, hi, ⟨x, b, a, tg, true⟩⟩ = .nullDeref "nbond" := by
  constructor
  · intro thrC dataFile n e ba lo hi x b a tg tbl hp hsetup
    rw [runMain_unfold thrC dataFile n true e (fun _ => ([], [])) ba [] lo hi
      ⟨x, b, a, tg, false⟩ tbl hp]
    rw [runSetup_eq_none e _ hsetup]
    rw [stepsLoop_nil tbl ba (fun _ => ([], [])) (hi - lo) ⟨x, b, a, tg, false⟩
      (fun _ => rfl) rfl n 0]
    rfl
  · intro thrC dataFile n e sn ba bt0 lo hi x b a tg tbl hp hsetup hn
    obtain ⟨m, rfl⟩ : ∃ m, n = m + 1 := ⟨n - 1, by omega⟩
    rw [runMain_unfold thrC dataFile (m + 1) true e sn ba bt0 lo hi
      ⟨x, b, a, tg, true⟩ tbl hp]
    rw [runSetup_eq_none e _ hsetup]
    simp only [stepsLoop]
    rw [avalancheRaw_nbond_null tbl ba sn (hi - lo) ⟨x, b, a, tg, true⟩ 0 bt0 rfl]
    rfl

/-- C2 witness: concrete instances of both amended behaviours. -/
theorem C2_no_availability_checks_witness :
    runMain (some ["2 1.5"]) "net.data" 2
      ⟨true, fun _ => none, fun _ => ([], []), [], [], 0, 20,
        ⟨true, true, true, true, false⟩⟩ = .exit 0 ∧
    runMain (some ["2 1.5"]) "net.data" 2
      ⟨true, fun _ => none, fun _ => ([1, 2], [(0, 0), (1, 0)]), [(1, 2)], [2], 0, 20,
        ⟨false, false, false, false, true⟩⟩ = .nullDeref "nbond" :=
  ⟨C2_no_availability_checks.1 (some ["2 1.5"]) "net.data" 2 (fun _ => none)
      [] 0 20 true true true true [(2, 3/2)] (by with_unfolding_all rfl)
      (fun _ _ => rfl),
    C2_no_availability_checks.2 (some ["2 1.5"]) "net.data" 2 (fun _ => none)
      (fun _ => ([1, 2], [(0, 0), (1, 0)])) [(1, 2)] [2] 0 20 false false false false
      [(2, 3/2)] (by with_unfolding_all rfl) (fun _ _ => rfl) (by omega)⟩

/-- C3 counterexample: the solver reports an error for the per-step
    command `unfix 2`, yet the run ignores it and exits 0, not 1. -/
theorem C3_counterexample :
    (SolverModel.mk true (fun c => if c = "unfix 2" then some "boom" else none)
        (fun _ => ([1, 2], [(0, 0), (1, 0)])) [(1, 2)] [2] 0 20 noNulls).cmdErr
      "unfix 2" = some "boom" ∧
    runMain (some ["2 1.5"]) "net.data" 3
      (SolverModel.mk true (fun c => if c = "unfix 2" then some "boom" else none)
        (fun _ => ([1, 2], [(0, 0), (1, 0)])) [(1, 2)] [2] 0 20 noNulls) = .exit 0 :=
  ⟨by with_unfolding_all rfl, by with_unfolding_all rfl⟩

/-- C3 amended: per-step command responses are discarded: the run outcome
    does not depend on the solver's responses outside the 13 checked setup
    commands; a non-null error on any setup command (and only there)
    aborts with exit code 1. -/
theorem C3_per_step_errors_ignored :
    (∀ (thrC : Option (List String)) (dataFile : String) (n : Nat)
       (e1 e2 : String → Option String) (sn : Nat → List Int × List (ℚ × ℚ))
       (ba : List (Int × Int)) (bt0 : List Int) (lo hi : ℚ) (nf : NullFlags) (op : Bool),
      (∀ cmd ∈ setupCmds dataFile, e1 cmd = e2 cmd) →
      runMain thrC dataFile n ⟨op, e1, sn, ba, bt0, lo, hi, nf⟩ =
        runMain thrC dataFile n ⟨op, e2, sn, ba, bt0, lo, hi, nf⟩) ∧
    ∀ (thrC : Option (List String)) (dataFile : String) (n : Nat)
      (e : String → Option String) (sn : Nat → List Int × List (ℚ × ℚ))
      (ba : List (Int × Int)) (bt0 : List Int) (lo hi : ℚ) (nf : NullFlags)
      (tbl : List (Int × ℚ)),
      parse_thresholds thrC = .ok tbl →
      (∃ cmd ∈ setupCmds dataFile, e cmd ≠ none) →
      runMain thrC dataFile n ⟨true, e, sn, ba, bt0, lo, hi, nf⟩ = .exit 1 := by
  constructor
  · intro thrC dataFile n e1 e2 sn ba bt0 lo hi nf op h
    cases hp : parse_thresholds thrC with
    | error err =>
      unfold runMain
      rw [hp]
    | ok tbl =>
      rw [runMain_unfold thrC dataFile n op e1 sn ba bt0 lo hi nf tbl hp,
        runMain_unfold thrC dataFile n op e2 sn ba bt0 lo hi nf tbl hp,
        runSetup_congr e1 e2 _ h]
  · intro thrC dataFile n e sn ba bt0 lo hi nf tbl hp hex
    rw [runMain_unfold thrC dataFile n true e sn ba bt0 lo hi nf tbl hp,
      runSetup_eq_some_one e _ hex]
    rfl

/-- C3 witness: a per-step error leaves two runs identical; a setup error
    exits 1. -/
theorem C3_per_step_errors_ignored_witness :
    runMain (some ["2 1.5"]) "net.data" 3
      ⟨true, fun c => if c = "unfix 2" then some "boom" else none,
        fun _ => ([1, 2], [(0, 0), (1, 0)]), [(1, 2)], [2], 0, 20, noNulls⟩ =
      runMain (some ["2 1.5"]) "net.data" 3
        ⟨true, fun _ => none,
          fun _ => ([1, 2], [(0, 0), (1, 0)]), [(1, 2)], [2], 0, 20, noNulls⟩ ∧
    runMain (some ["2 1.5"]) "net.data" 3
      ⟨true, fun c => if c = "units lj" then some "bad" else none,
        fun _ => ([1, 2], [(0, 0), (1, 0)]), [(1, 2)], [2], 0, 20, noNulls⟩ = .exit 1 :=
  ⟨C3_per_step_errors_ignored.1 (some ["2 1.5"]) "net.data" 3
      (fun c => if c = "unfix 2" then some "boom" else none) (fun _ => none)
      (fun _ => ([1, 2], [(0, 0), (1, 0)])) [(1, 2)] [2] 0 20 noNulls true
      (by decide),
    C3_per_step_errors_ignored.2 (some ["2 1.5"]) "net.data" 3
      (fun c => if c = "units lj" then some "bad" else none)
      (fun _ => ([1, 2], [(0, 0), (1, 0)])) [(1, 2)] [2] 0 20 noNulls
      [(2, 3/2)] (by with_unfolding_all rfl) (by decide)⟩

/-- C7 witness: a concrete three-step run (one break in step one). -/
theorem C7_cumulative_broken_monotone_witness :
    (runSteps [((2 : Int), (3/2 : ℚ))] [((1 : Int), (2 : Int))]
        (fun _ => ([1, 2], [(0, 0), (2, 0)])) 100 3 0 [2] 0).2.2 =
      (runIterCounts [((2 : Int), (3/2 : ℚ))] [((1 : Int), (2 : Int))]
        (fun _ => ([1, 2], [(0, 0), (2, 0)])) 100 3 0 [2]).sum ∧
    (runSteps [((2 : Int), (3/2 : ℚ))] [((1 : Int), (2 : Int))]
        (fun _ => ([1, 2], [(0, 0), (2, 0)])) 100 3 0 [2] 0).2.2 ≤
      (runSteps [((2 : Int), (3/2 : ℚ))] [((1 : Int), (2 : Int))]
        (fun _ => ([1, 2], [(0, 0), (2, 0)])) 100 (3 + 1) 0 [2] 0).2.2 ∧
    ∀ cnt ∈ runIterCounts [((2 : Int), (3/2 : ℚ))] [((1 : Int), (2 : Int))]
        (fun _ => ([1, 2], [(0, 0), (2, 0)])) 100 3 0 [2], 0 ≤ cnt :=
  C7_cumulative_broken_monotone [((2 : Int), (3/2 : ℚ))] [((1 : Int), (2 : Int))]
    (fun _ => ([1, 2], [(0, 0), (2, 0)])) 100 3 0 [2]
